import Mathlib

/-!
Verification of the `srt_transfer` subtitle-translation pipeline.

The Python sources (`translate_srt.py`, `translate_srt_baidu.py`) are shallowly
embedded below.  A Python string is modeled as a `List Char` (`Str`); Python
lists become Lean lists; the stateful loops of the source become structural
recursions carrying the loop variables; network calls are abstracted as
function parameters (`tr : Str → Str` for a provider, `outcomes : Nat → _` for
the per-attempt result of an HTTP request); real-time quantities (delays,
timestamps) are measured in tenths of a second as natural numbers.
-/

namespace SrtTransfer

/-- A Python string, modeled as its list of characters (`len` = `List.length`). -/
abbrev Str := List Char

/-! ## Repeat compressor (`compress_line`, translate_srt.py lines 364-385) -/

/-- The ellipsis token `"..."` appended after a compressed run. -/
def ellipsisTok : Str := ['.', '.', '.']

/-- Python `line.split()` (no separator argument): split on runs of whitespace,
producing the maximal whitespace-free nonempty tokens, in order. -/
def wsSplit : Str → List Str
  | [] => []
  | c :: cs =>
    if c.isWhitespace then wsSplit cs
    else (c :: cs.takeWhile (fun d => !d.isWhitespace)) ::
      wsSplit (cs.dropWhile (fun d => !d.isWhitespace))
termination_by l => l.length
decreasing_by
  · simp only [List.length_cons]; omega
  · simp only [List.length_cons]
    have := List.Sublist.length_le (List.dropWhile_sublist (fun d => !d.isWhitespace) (l := cs))
    omega

/-- The token-scanning loop of `compress_line`: at index `i`, `count` is the
length of the run of tokens equal to `words[i]`; a run of `count ≥ 3` emits
`words[i:i+3]` plus `"..."`, a shorter run emits `words[i:i+count]`; both then
advance by `count`. -/
def compressWords : List Str → List Str
  | [] => []
  | w :: rest =>
    if 3 ≤ (rest.takeWhile (fun x => x == w)).length + 1 then
      (w :: rest).take 3 ++ [ellipsisTok] ++
        compressWords (rest.drop (rest.takeWhile (fun x => x == w)).length)
    else
      (w :: rest).take ((rest.takeWhile (fun x => x == w)).length + 1) ++
        compressWords (rest.drop (rest.takeWhile (fun x => x == w)).length)
termination_by l => l.length
decreasing_by
  all_goals simp only [List.length_cons, List.length_drop]; omega

/-- `compress_line` (translate_srt.py 364-385): tokenize with `line.split()`;
if there are no tokens return the line unchanged, otherwise compress the runs
and re-join the emitted tokens with single spaces (`" ".join(new_words)`). -/
def compress_line (line : Str) : Str :=
  if wsSplit line = [] then line
  else List.intercalate [' '] (compressWords (wsSplit line))

/-- Modelled from the spec (refinement side of claim C6): "scan runs of
consecutive equal tokens" — the maximal runs of consecutive equal tokens, in
order.  Each run is nonempty and `(runsOfTokens ws).flatten = ws`. -/
def runsOfTokens : List Str → List (List Str)
  | [] => []
  | w :: rest =>
    (w :: rest.takeWhile (fun x => x == w)) :: runsOfTokens (rest.dropWhile (fun x => x == w))
termination_by l => l.length
decreasing_by
  simp only [List.length_cons]
  have := List.Sublist.length_le (List.dropWhile_sublist (fun x => x == w) (l := rest))
  omega

/-- Modelled from the spec (refinement side of claim C6): "for a run of length
≥ 3, emit the first 3 tokens of the run followed by a single ellipsis token;
for a run of length < 3, emit the run unchanged". -/
def compressRun (r : List Str) : List Str :=
  if 3 ≤ r.length then r.take 3 ++ [ellipsisTok] else r

/-- Modelled from the spec (refinement side of claim C6): the compressor as the
spec describes it — tokenize, compress each run, join with single spaces. -/
def compress_spec (line : Str) : Str :=
  List.intercalate [' '] ((runsOfTokens (wsSplit line)).flatMap compressRun)

/-! ## Batcher (`batch_subtitles`, translate_srt.py lines 472-496) -/

/-- The loop body of `batch_subtitles`, carrying the mutable state
`(current_batch, current_len)`; the Python `for` loop followed by the final
`if current_batch: batches.append(current_batch)`.  The source guards on
`if current_batch:` (nonempty) first; the branches are reproduced verbatim:
a unit is appended when `current_len + delim_len + s_len ≤ limit`, otherwise
the current batch is closed and the unit starts a new one. -/
def batch_go (delimLen limit : Nat) : List Str → List Str → Nat → List (List Str)
  | [], currentBatch, _ => if currentBatch = [] then [] else [currentBatch]
  | s :: rest, currentBatch, currentLen =>
    if currentBatch = [] then
      batch_go delimLen limit rest [s] s.length
    else if limit < currentLen + delimLen + s.length then
      currentBatch :: batch_go delimLen limit rest [s] s.length
    else
      batch_go delimLen limit rest (currentBatch ++ [s]) (currentLen + delimLen + s.length)

/-- `batch_subtitles(subtitles, limit=6000, delimiter="\n")`
(translate_srt.py 472-496). -/
def batch_subtitles (subtitles : List Str) (limit : Nat) (delimiter : Str) : List (List Str) :=
  batch_go delimiter.length limit subtitles [] 0

/-- The packed size of a batch as the spec states it:
`sum(len(unit) for unit in batch) + (len(batch)-1)*len(delimiter)`. -/
def packedLen (delimLen : Nat) (batch : List Str) : Nat :=
  (batch.map List.length).sum + (batch.length - 1) * delimLen

/-! ## Batch translation and reassembly (`translate_in_batches`, lines 522-547) -/

/-- `translate_in_batches` (translate_srt.py 522-547) with the provider call
`baidu_translate` abstracted as `tr : Str → Str`: compress every subtitle,
batch them with delimiter `"\n"`, and for each batch join it with `"\n"`,
translate, split the reply on `"\n"` and `extend` the result list with the
pieces as they are. -/
def translate_in_batches (tr : Str → Str) (subtitles : List Str) (limit : Nat) : List Str :=
  (batch_subtitles (subtitles.map compress_line) limit ['\n']).flatMap
    (fun batch => (tr (List.intercalate ['\n'] batch)).splitOn '\n')

/-- The number of count-mismatch warnings printed by `translate_in_batches`:
one per batch whose reply splits into a number of lines different from the
batch's unit count (`if len(translated_lines) != len(batch): print(警告)`). -/
def batch_warnings (tr : Str → Str) (subtitles : List Str) (limit : Nat) : Nat :=
  (batch_subtitles (subtitles.map compress_line) limit ['\n']).countP
    (fun batch => ((tr (List.intercalate ['\n'] batch)).splitOn '\n').length != batch.length)

/-! ## Retry clients -/

/-- The possible outcomes of one HTTP attempt inside `baidu_translate`
(translate_srt.py 417-467): a transport exception, a non-200 status, a reply
with an `error_code`, a reply with `trans_result` (its `dst` lines), or a
reply with neither. -/
inductive AttemptOutcome where
  | requestError : AttemptOutcome
  | httpError : AttemptOutcome
  | apiError : AttemptOutcome
  | transResult : List Str → AttemptOutcome
  | unknownReply : AttemptOutcome

/-- `delay = min(delay + 0.1, max_delay)` with `max_delay = 1.0`, in tenths of
a second (translate_srt.py 444, 450, 457, 467). -/
def nextDelay (delay : Nat) : Nat := min (delay + 1) 10

/-- Fuel-indexed unfolding of the `while True:` retry loop of `baidu_translate`
(translate_srt.py 437-467).  `attempt` numbers the HTTP attempts, `delay` is
the current backoff in tenths of a second (initially `0.1s = 1`).  On a
`trans_result` reply the loop returns `"\n".join(dst lines)`; on every other
outcome it sleeps `delay`, bumps the delay and retries.  `none` means `fuel`
attempts elapsed without the loop returning — the source has no attempt cap,
so no terminal-error exit exists to model. -/
def baiduRetryLoop (outcomes : Nat → AttemptOutcome) : Nat → Nat → Nat → Option Str
  | 0, _, _ => none
  | fuel + 1, attempt, delay =>
    match outcomes attempt with
    | .transResult lines => some (List.intercalate ['\n'] lines)
    | _ => baiduRetryLoop outcomes fuel (attempt + 1) (nextDelay delay)

/-- The retry loop started as the source starts it: first attempt 0,
initial delay 0.1s. -/
def baiduRetryRun (outcomes : Nat → AttemptOutcome) (fuel : Nat) : Option Str :=
  baiduRetryLoop outcomes fuel 0 1

/-- The bounded retry loop of `baidu_translate` in translate_srt_baidu.py
(lines 125-140): `for attempt in range(max_retries)`, where attempt `i`
either succeeds with a translation (`some t`) or fails (`none`); after the
loop the function returns the empty string.  `remaining` counts the attempts
still allowed. -/
def baiduRetryBounded (outcomes : Nat → Option Str) : Nat → Nat → Str
  | _, 0 => []
  | attempt, remaining + 1 =>
    match outcomes attempt with
    | some t => t
    | none => baiduRetryBounded outcomes (attempt + 1) remaining

/-! ## Rate limiter (`rate_semaphore` / `replenish_tokens`, lines 398-412) -/

/-- Total permits the semaphore has ever issued by time `t` (tenths of a
second): `threading.Semaphore(10)` starts with 10 permits and
`replenish_tokens` releases 10 more after every full second (`time.sleep(1)`
then 10 `release()` calls), i.e. at times 10, 20, 30, … tenths. -/
def tokensIssued (t : Nat) : Nat := 10 + 10 * (t / 10)

/-- A list of completion times (tenths of a second) of successful
`rate_semaphore.acquire()` calls is feasible for the semaphore iff at no time
have more acquires completed than permits were issued by then — the safety
invariant of a counting semaphore with no upper cap on its value. -/
def FeasibleTrace (acquireTimes : List Nat) : Prop :=
  ∀ t, acquireTimes.countP (fun a => decide (a ≤ t)) ≤ tokensIssued t

/-- Number of acquire completions inside the half-open time window
`(lo, lo + T]` (tenths of a second). -/
def windowCount (acquireTimes : List Nat) (lo T : Nat) : Nat :=
  acquireTimes.countP (fun a => decide (lo < a ∧ a ≤ lo + T))

/-- A feasible burst trace: no acquires for 100 seconds while the replenish
thread keeps releasing tokens, then 1010 acquires complete together at
t = 100.5 s (time 1005 in tenths). -/
def burstTrace : List Nat := List.replicate 1010 1005

/-! ## Per-unit concurrent translation
(`parallel_translate`, translate_srt_baidu.py 142-162;
`translate_line_by_line`, translate_srt.py 501-517) -/

/-- The shared pattern of both concurrent drivers: `results = [None]*n`; each
submitted index is mapped to a future and, as futures complete (in the order
given by `completions`), `results[idx] = worker(texts[idx])` is stored at the
originating index.  `completions` is the completion order of the workers. -/
def applyCompletions (worker : Str → Str) (texts : List Str) (completions : List Nat) :
    List (Option Str) :=
  completions.foldl (fun results i => results.set i (some (worker (texts.getD i []))))
    (List.replicate texts.length none)

/-- `parallel_translate` (translate_srt_baidu.py 142-162): each text is
translated independently (`baidu_translate` abstracted as `translateOne`) and
stored by originating index as futures complete. -/
def parallel_translate (translateOne : Str → Str) (texts : List Str)
    (completions : List Nat) : List (Option Str) :=
  applyCompletions translateOne texts completions

/-- `translate_line_by_line` (translate_srt.py 501-517): like
`parallel_translate`, but each worker first compresses its line
(`compress_line`) before translating it. -/
def translate_line_by_line (translateOne : Str → Str) (subtitles : List Str)
    (completions : List Nat) : List (Option Str) :=
  applyCompletions (fun line => translateOne (compress_line line)) subtitles completions

/-! ## Line classifier and blank-content substitution -/

/-- Python `s.strip()`: remove leading and trailing whitespace. -/
def pyStrip (s : Str) : Str :=
  ((s.dropWhile Char.isWhitespace).reverse.dropWhile Char.isWhitespace).reverse

/-- Modelled from the spec: one `HH:MM:SS,mmm` timestamp (two-digit hours,
minutes and seconds, a comma, three-digit milliseconds).  The source contains
no `is_translatable` function (claim C9 cites only its caller-side line
filtering in translate_srt.py `main`), so the classifier is modelled from the
spec's contract in §4.1. -/
def isTimestampToken (l : Str) : Bool :=
  match l with
  | [h1, h2, c1, m1, m2, c2, s1, s2, cm, d1, d2, d3] =>
    h1.isDigit && h2.isDigit && c1 == ':' && m1.isDigit && m2.isDigit && c2 == ':' &&
      s1.isDigit && s2.isDigit && cm == ',' && d1.isDigit && d2.isDigit && d3.isDigit
  | _ => false

/-- Modelled from the spec: the fixed time-range pattern
`HH:MM:SS,mmm --> HH:MM:SS,mmm` (12 + 5 + 12 = 29 characters, the two
timestamps separated by the arrow token with single surrounding spaces). -/
def isTimeRange (l : Str) : Bool :=
  l.length == 29 && isTimestampToken (l.take 12) &&
    (l.drop 12).take 5 == [' ', '-', '-', '>', ' '] && isTimestampToken (l.drop 17)

/-- Modelled from the spec: `is_translatable(line)` (§4.1) — false for a line
that is empty after trimming whitespace, false for a line composed solely of
decimal digits, false for a line matching the time-range pattern ignoring
surrounding whitespace, true otherwise. -/
def is_translatable (line : Str) : Bool :=
  if pyStrip line = [] then false
  else if (pyStrip line).all Char.isDigit then false
  else if isTimeRange (pyStrip line) then false
  else true

/-- The text submitted per subtitle by `SRTTranslator.translate_srt_file` in
translate_srt.py (line 82): `sub.content if sub.content.strip() else " "`. -/
def deepl_original_text (content : Str) : Str :=
  if pyStrip content = [] then [' '] else content

/-- The text submitted per subtitle by `SRTTranslator.translate_srt_file` in
translate_srt_baidu.py (line 185):
`sub.content.strip() if sub.content.strip() else " "`. -/
def baidu_original_text (content : Str) : Str :=
  if pyStrip content = [] then [' '] else pyStrip content

/-! ## Concrete units for the boundary example of claim C5 -/

/-- `"x" * 3000`. -/
def unitX : Str := List.replicate 3000 'x'

/-- `"y" * 3000`. -/
def unitY : Str := List.replicate 3000 'y'

/-- `"z" * 3000`. -/
def unitZ : Str := List.replicate 3000 'z'

/-! ## Generic list lemmas used by the development -/

theorem drop_length_takeWhile {α : Type} (p : α → Bool) (l : List α) :
    l.drop (l.takeWhile p).length = l.dropWhile p := by
  induction l with
  | nil => simp
  | cons a t ih =>
    by_cases h : p a
    · simp [List.takeWhile_cons, List.dropWhile_cons, h, ih]
    · simp [List.takeWhile_cons, List.dropWhile_cons, h]

theorem takeWhile_append_stop {α : Type} (p : α → Bool) (l₁ l₂ : List α) (x : α)
    (h₁ : ∀ y ∈ l₁, p y = true) (h₂ : p x = false) :
    (l₁ ++ x :: l₂).takeWhile p = l₁ := by
  induction l₁ with
  | nil => simp [List.takeWhile_cons, h₂]
  | cons a t ih =>
    have ha : p a = true := h₁ a (by simp)
    simp only [List.cons_append, List.takeWhile_cons, ha, if_true]
    have := ih (fun y hy => h₁ y (by simp [hy]))
    simp [this]

theorem dropWhile_append_stop {α : Type} (p : α → Bool) (l₁ l₂ : List α) (x : α)
    (h₁ : ∀ y ∈ l₁, p y = true) (h₂ : p x = false) :
    (l₁ ++ x :: l₂).dropWhile p = x :: l₂ := by
  induction l₁ with
  | nil => simp [List.dropWhile_cons, h₂]
  | cons a t ih =>
    have ha : p a = true := h₁ a (by simp)
    simp only [List.cons_append, List.dropWhile_cons, ha, if_true]
    exact ih (fun y hy => h₁ y (by simp [hy]))

theorem takeWhile_eq_self_of_all {α : Type} (p : α → Bool) (l : List α)
    (h : ∀ y ∈ l, p y = true) : l.takeWhile p = l := by
  induction l with
  | nil => simp
  | cons a t ih =>
    have ha : p a = true := h a (by simp)
    simp only [List.takeWhile_cons, ha, if_true]
    rw [ih (fun y hy => h y (by simp [hy]))]

theorem dropWhile_eq_nil_of_all {α : Type} (p : α → Bool) (l : List α)
    (h : ∀ y ∈ l, p y = true) : l.dropWhile p = [] := by
  induction l with
  | nil => simp
  | cons a t ih =>
    have ha : p a = true := h a (by simp)
    simp only [List.dropWhile_cons, ha, if_true]
    exact ih (fun y hy => h y (by simp [hy]))

theorem take_takeWhile_eq_take {α : Type} (p : α → Bool) (l : List α) (k : Nat)
    (h : k ≤ (l.takeWhile p).length) : (l.takeWhile p).take k = l.take k := by
  induction l generalizing k with
  | nil => simp
  | cons a t ih =>
    by_cases hp : p a
    · simp only [List.takeWhile_cons, hp, if_true] at h ⊢
      cases k with
      | zero => simp
      | succ m =>
        simp only [List.take_succ_cons]
        rw [ih m (by simpa using h)]
    · have hp' : p a = false := by simpa using hp
      simp only [List.takeWhile_cons, hp', if_false, List.length_nil] at h
      simp [List.takeWhile_cons, hp', Nat.le_zero.mp h]

theorem flatMap_eq_flatten_of_fixed {α : Type} (f : List α → List α) (l : List (List α))
    (h : ∀ x ∈ l, f x = x) : l.flatMap f = l.flatten := by
  induction l with
  | nil => simp
  | cons a t ih =>
    simp only [List.flatMap_cons, List.flatten_cons, h a (by simp)]
    rw [ih (fun x hx => h x (by simp [hx]))]

/-! ## Batcher: the loop invariants of `batch_go` -/

theorem batch_go_flatten (delimLen limit : Nat) (subs : List Str) :
    ∀ (cur : List Str) (n : Nat), (batch_go delimLen limit subs cur n).flatten = cur ++ subs := by
  induction subs with
  | nil =>
    intro cur n
    by_cases h : cur = [] <;> simp [batch_go, h]
  | cons s rest ih =>
    intro cur n
    by_cases h : cur = []
    · simp [batch_go, h, ih]
    · by_cases h2 : limit < n + delimLen + s.length
      · simp [batch_go, h, h2, ih]
      · simp [batch_go, h, h2, ih]

theorem packedLen_append_one (delimLen : Nat) (cur : List Str) (s : Str) (hcur : cur ≠ []) :
    packedLen delimLen (cur ++ [s]) = packedLen delimLen cur + delimLen + s.length := by
  cases cur with
  | nil => exact absurd rfl hcur
  | cons a t =>
    simp only [packedLen, List.map_append, List.sum_append, List.length_append, List.map_cons,
      List.map_nil, List.sum_cons, List.sum_nil, List.length_cons, List.length_nil,
      Nat.zero_add, Nat.add_sub_cancel, Nat.add_mul, Nat.one_mul]
    omega

theorem batch_go_packed (delimLen limit : Nat) (subs : List Str)
    (hs : ∀ s ∈ subs, s.length ≤ limit) :
    ∀ (cur : List Str) (n : Nat),
      (cur = [] ∧ n = 0 ∨ cur ≠ [] ∧ n = packedLen delimLen cur ∧ n ≤ limit) →
      ∀ b ∈ batch_go delimLen limit subs cur n, packedLen delimLen b ≤ limit := by
  induction subs with
  | nil =>
    intro cur n hinv b hb
    by_cases h : cur = []
    · simp [batch_go, h] at hb
    · simp only [batch_go, h, if_false, List.mem_singleton] at hb
      subst hb
      rcases hinv with ⟨rfl, _⟩ | ⟨_, hn, hle⟩
      · exact absurd rfl h
      · omega
  | cons s rest ih =>
    intro cur n hinv b hb
    have hslen : s.length ≤ limit := hs s (by simp)
    have hrest : ∀ u ∈ rest, u.length ≤ limit := fun u hu => hs u (by simp [hu])
    by_cases h : cur = []
    · simp only [batch_go, h, if_true] at hb
      exact ih hrest [s] s.length
        (Or.inr ⟨by simp, by simp [packedLen], hslen⟩) b hb
    · rcases hinv with ⟨rfl, _⟩ | ⟨_, hn, hle⟩
      · exact absurd rfl h
      · by_cases h2 : limit < n + delimLen + s.length
        · simp only [batch_go, h, if_false, h2, if_true, List.mem_cons] at hb
          rcases hb with rfl | hb'
          · omega
          · exact ih hrest [s] s.length
              (Or.inr ⟨by simp, by simp [packedLen], hslen⟩) b hb'
        · simp only [batch_go, h, if_false, h2] at hb
          refine ih hrest (cur ++ [s]) (n + delimLen + s.length) (Or.inr ⟨by simp, ?_, ?_⟩) b hb
          · rw [packedLen_append_one delimLen cur s h, hn]
          · omega

/-- C1: `batch_subtitles` partitions the input — concatenating the batches in
order gives back the input list of units, so every unit lands in exactly one
batch with its position preserved — and, provided no single unit is longer
than `limit`, every batch `b` satisfies
`sum(len(unit) for unit in b) + (len(b)-1)*len(delimiter) ≤ limit`. -/
theorem batch_subtitles_partition_and_bounded (subtitles : List Str) (limit : Nat)
    (delimiter : Str) :
    (batch_subtitles subtitles limit delimiter).flatten = subtitles ∧
    ((∀ s ∈ subtitles, s.length ≤ limit) →
      ∀ b ∈ batch_subtitles subtitles limit delimiter,
        packedLen delimiter.length b ≤ limit) := by
  constructor
  · simpa using batch_go_flatten delimiter.length limit subtitles [] 0
  · intro hs
    exact batch_go_packed delimiter.length limit subtitles hs [] 0 (Or.inl ⟨rfl, rfl⟩)

/-- Witness for C1 at a concrete input: two one-character units, limit 5,
delimiter `"\n"`. -/
theorem batch_subtitles_partition_and_bounded_witness :
    (batch_subtitles [['a'], ['b']] 5 ['\n']).flatten = [['a'], ['b']] ∧
    ∀ b ∈ batch_subtitles [['a'], ['b']] 5 ['\n'], packedLen 1 b ≤ 5 :=
  ⟨(batch_subtitles_partition_and_bounded [['a'], ['b']] 5 ['\n']).1,
    (batch_subtitles_partition_and_bounded [['a'], ['b']] 5 ['\n']).2 (by decide)⟩

/-- Evaluation of `batch_subtitles` on the boundary example of claim C5:
three singleton batches, because at each step 3000 + 1 + 3000 = 6001 > 6000. -/
theorem batch_boundary_eq :
    batch_subtitles [unitX, unitY, unitZ] 6000 ['\n'] = [[unitX], [unitY], [unitZ]] := by
  have hx : unitX.length = 3000 := by rw [unitX, List.length_replicate]
  have hy : unitY.length = 3000 := by rw [unitY, List.length_replicate]
  have hz : unitZ.length = 3000 := by rw [unitZ, List.length_replicate]
  rw [batch_subtitles]
  rw [show (['\n'] : Str).length = 1 from rfl]
  rw [batch_go, if_pos rfl, hx]
  rw [batch_go, if_neg (List.cons_ne_nil _ _), hy, if_pos (by norm_num)]
  rw [batch_go, if_neg (List.cons_ne_nil _ _), hz, if_pos (by norm_num)]
  rw [batch_go, if_neg (List.cons_ne_nil _ _)]

/-- C5 counterexample: on `["x"*3000, "y"*3000, "z"*3000]` with `limit = 6000`
and delimiter `"\n"`, `batch_subtitles` returns three singleton batches, not
the claimed two batches with the first two units grouped together. -/
theorem batch_subtitles_boundary_counterexample :
    batch_subtitles [unitX, unitY, unitZ] 6000 ['\n'] = [[unitX], [unitY], [unitZ]] ∧
    (batch_subtitles [unitX, unitY, unitZ] 6000 ['\n']).length ≠ 2 :=
  ⟨batch_boundary_eq, by rw [batch_boundary_eq]; decide⟩

/-- C5 amended: the boundary example yields exactly three batches, one unit
each (each step would pack 3000 + 1 + 3000 = 6001 > 6000 characters). -/
theorem batch_subtitles_boundary_example :
    batch_subtitles [unitX, unitY, unitZ] 6000 ['\n'] = [[unitX], [unitY], [unitZ]] ∧
    (batch_subtitles [unitX, unitY, unitZ] 6000 ['\n']).length = 3 :=
  ⟨batch_boundary_eq, by rw [batch_boundary_eq]; rfl⟩

/-! ## Repeat compressor: run structure of `compress_line` -/

theorem compressWords_eq_runs (ws : List Str) :
    compressWords ws = (runsOfTokens ws).flatMap compressRun := by
  induction ws using compressWords.induct with
  | case1 => simp [compressWords, runsOfTokens]
  | case2 w rest h ih =>
    have h2 : 2 ≤ (rest.takeWhile (fun x => x == w)).length := by omega
    rw [compressWords, if_pos h, runsOfTokens, List.flatMap_cons]
    rw [compressRun, if_pos (by simpa using h)]
    rw [← drop_length_takeWhile (fun x => x == w) rest]
    rw [ih]
    rw [show ((w :: rest.takeWhile (fun x => x == w)).take 3)
        = w :: (rest.takeWhile (fun x => x == w)).take 2 from rfl]
    rw [show ((w :: rest).take 3) = w :: rest.take 2 from rfl]
    rw [take_takeWhile_eq_take _ rest 2 h2]
  | case3 w rest h ih =>
    rw [compressWords, if_neg h, runsOfTokens, List.flatMap_cons]
    rw [compressRun, if_neg (by simpa using h)]
    rw [← drop_length_takeWhile (fun x => x == w) rest]
    rw [ih]
    rw [List.take_succ_cons]
    rw [← take_takeWhile_eq_take (fun x => x == w) rest
      (rest.takeWhile (fun x => x == w)).length (Nat.le_refl _)]
    rw [List.take_length]

theorem runsOfTokens_flatten (ws : List Str) : (runsOfTokens ws).flatten = ws := by
  induction ws using runsOfTokens.induct with
  | case1 => simp [runsOfTokens]
  | case2 w rest ih =>
    rw [runsOfTokens, List.flatten_cons, ih]
    rw [List.cons_append, List.takeWhile_append_dropWhile]

theorem compressWords_eq_self (ws : List Str) (h : ∀ r ∈ runsOfTokens ws, r.length < 3) :
    compressWords ws = ws := by
  rw [compressWords_eq_runs]
  rw [flatMap_eq_flatten_of_fixed compressRun _
    (fun r hr => by rw [compressRun, if_neg (Nat.not_le.mpr (h r hr))])]
  exact runsOfTokens_flatten ws

theorem wsSplit_tokens (l : Str) :
    ∀ w ∈ wsSplit l, w ≠ [] ∧ ∀ c ∈ w, c.isWhitespace = false := by
  induction l using wsSplit.induct with
  | case1 => simp [wsSplit]
  | case2 c cs h ih =>
    rw [wsSplit, if_pos h]
    exact ih
  | case3 c cs h ih =>
    rw [wsSplit, if_neg h]
    intro w hw
    rcases List.mem_cons.mp hw with rfl | hw'
    · refine ⟨List.cons_ne_nil _ _, ?_⟩
      intro ch hch
      rcases List.mem_cons.mp hch with rfl | hch'
      · simpa using h
      · simpa using List.mem_takeWhile_imp hch'
    · exact ih w hw'

theorem wsSplit_single (w : Str) (hne : w ≠ []) (hws : ∀ c ∈ w, c.isWhitespace = false) :
    wsSplit w = [w] := by
  cases w with
  | nil => exact absurd rfl hne
  | cons c cs =>
    have hc : c.isWhitespace = false := hws c (by simp)
    rw [wsSplit, if_neg (by simp [hc])]
    rw [takeWhile_eq_self_of_all _ cs (fun y hy => by simp [hws y (by simp [hy])])]
    rw [dropWhile_eq_nil_of_all _ cs (fun y hy => by simp [hws y (by simp [hy])])]
    simp [wsSplit]

theorem intercalate_cons_cons {α : Type} (sep x y : List α) (l : List (List α)) :
    List.intercalate sep (x :: y :: l) = x ++ sep ++ List.intercalate sep (y :: l) := by
  simp [List.intercalate, List.intersperse]

theorem wsSplit_intercalate (ws : List Str)
    (h : ∀ w ∈ ws, w ≠ [] ∧ ∀ c ∈ w, c.isWhitespace = false) (hne : ws ≠ []) :
    wsSplit (List.intercalate [' '] ws) = ws := by
  induction ws with
  | nil => exact absurd rfl hne
  | cons w rest ih =>
    cases rest with
    | nil =>
      rw [show List.intercalate [' '] [w] = w by simp [List.intercalate]]
      exact wsSplit_single w (h w (by simp)).1 (h w (by simp)).2
    | cons w2 rest2 =>
      rw [intercalate_cons_cons]
      obtain ⟨hw1, hw2⟩ := h w (by simp)
      obtain ⟨c, cs, rfl⟩ : ∃ c cs, w = c :: cs := by
        cases w with
        | nil => exact absurd rfl hw1
        | cons c cs => exact ⟨c, cs, rfl⟩
      have hc : c.isWhitespace = false := hw2 c (by simp)
      have hcs : ∀ y ∈ cs, (!y.isWhitespace) = true := fun y hy => by
        simp [hw2 y (by simp [hy])]
      rw [show (c :: cs) ++ [' '] ++ List.intercalate [' '] (w2 :: rest2)
          = c :: (cs ++ ' ' :: List.intercalate [' '] (w2 :: rest2)) by simp]
      rw [wsSplit, if_neg (by simp [hc])]
      rw [takeWhile_append_stop _ cs _ ' ' hcs (by decide)]
      rw [dropWhile_append_stop _ cs _ ' ' hcs (by decide)]
      rw [wsSplit, if_pos (by decide)]
      rw [ih (fun u hu => h u (by simp [hu])) (by simp)]

/-- C6: for every line whose whitespace tokenization is nonempty,
`compress_line` coincides with the compressor as the spec describes it —
group the tokens into maximal runs of consecutive equal tokens, emit a run of
length ≥ 3 as its first 3 tokens followed by one ellipsis token, emit a
shorter run unchanged, and join the emitted tokens with single spaces — and
the empty input maps to the empty output under both descriptions. -/
theorem compress_line_matches_run_spec (line : Str) :
    (wsSplit line ≠ [] → compress_line line = compress_spec line) ∧
    compress_line [] = [] ∧ compress_spec [] = [] := by
  refine ⟨fun h => ?_, by simp [compress_line, wsSplit], by simp [compress_spec, wsSplit, runsOfTokens, List.intercalate]⟩
  rw [compress_line, if_neg h, compress_spec, compressWords_eq_runs]

/-- Witness for C6 at the concrete line `"q q q q r"`. -/
theorem compress_line_matches_run_spec_witness :
    wsSplit ['q', ' ', 'q', ' ', 'q', ' ', 'q', ' ', 'r'] ≠ [] ∧
    compress_line ['q', ' ', 'q', ' ', 'q', ' ', 'q', ' ', 'r'] =
      compress_spec ['q', ' ', 'q', ' ', 'q', ' ', 'q', ' ', 'r'] :=
  ⟨by simp [wsSplit], (compress_line_matches_run_spec _).1 (by simp [wsSplit])⟩

/-- C3 counterexample: `compress` is not idempotent.  On `"a a a"` the first
pass yields `"a a a ..."`; the second pass sees the run `a a a` of length
exactly 3 again and yields `"a a a ... ..."`. -/
theorem compress_line_not_idempotent :
    compress_line (compress_line ['a', ' ', 'a', ' ', 'a']) ≠
      compress_line ['a', ' ', 'a', ' ', 'a'] := by
  simp [compress_line, wsSplit, compressWords, ellipsisTok, List.intercalate]

/-- C3 amended: `compress` is idempotent on every string whose whitespace
tokenization contains no run of 3 or more consecutive identical tokens (on
such input the compressor only re-joins the tokens with single spaces, and a
second pass re-tokenizes to the same tokens). -/
theorem compress_line_idempotent_of_short_runs (s : Str)
    (h : ∀ r ∈ runsOfTokens (wsSplit s), r.length < 3) :
    compress_line (compress_line s) = compress_line s := by
  by_cases hw : wsSplit s = []
  · have h1 : compress_line s = s := by rw [compress_line, if_pos hw]
    rw [h1]
    exact h1
  · have hcw : compressWords (wsSplit s) = wsSplit s := compressWords_eq_self _ h
    have h1 : compress_line s = List.intercalate [' '] (wsSplit s) := by
      rw [compress_line, if_neg hw, hcw]
    have h2 : wsSplit (compress_line s) = wsSplit s := by
      rw [h1]
      exact wsSplit_intercalate _ (wsSplit_tokens s) hw
    conv_lhs => rw [compress_line]
    simp only [h2]
    rw [if_neg hw, hcw]
    exact h1.symm

/-- Witness for C3 (amended) at the concrete line `"a b b"`. -/
theorem compress_line_idempotent_witness :
    (∀ r ∈ runsOfTokens (wsSplit ['a', ' ', 'b', ' ', 'b']), r.length < 3) ∧
    compress_line (compress_line ['a', ' ', 'b', ' ', 'b']) =
      compress_line ['a', ' ', 'b', ' ', 'b'] :=
  ⟨by simp [wsSplit, runsOfTokens], compress_line_idempotent_of_short_runs _
    (by simp [wsSplit, runsOfTokens])⟩

/-! ## Reassembly: what `translate_in_batches` does on a count mismatch -/

/-- C2 counterexample: five one-character subtitles form a single batch of 5;
a provider reply with only 4 lines (`"p\nq\nr\ns"`) is split and appended as
is — the result has 4 entries, not 5, and none is padded with the empty
string; the mismatch warning is recorded once. -/
theorem reassembly_mismatch_counterexample :
    translate_in_batches (fun _ => ['p', '\n', 'q', '\n', 'r', '\n', 's'])
        [['a'], ['b'], ['c'], ['d'], ['e']] 6000 = [['p'], ['q'], ['r'], ['s']] ∧
    (translate_in_batches (fun _ => ['p', '\n', 'q', '\n', 'r', '\n', 's'])
        [['a'], ['b'], ['c'], ['d'], ['e']] 6000).length ≠ 5 ∧
    batch_warnings (fun _ => ['p', '\n', 'q', '\n', 'r', '\n', 's'])
        [['a'], ['b'], ['c'], ['d'], ['e']] 6000 = 1 := by
  refine ⟨?_, ?_, ?_⟩ <;>
    simp [translate_in_batches, batch_warnings, batch_subtitles, batch_go, compress_line,
      wsSplit, compressWords, List.intercalate, List.splitOn, List.splitOnP, List.splitOnP.go]

/-- C2 amended: on a count mismatch the pipeline does not fail and records a
warning (no warning is recorded iff every batch's reply splits into exactly
`len(batch)` lines), but it neither pads nor drops: the result gains exactly
as many entries as the reply splits into, for every batch; only when every
reply preserves line counts does the result have one entry per subtitle. -/
theorem translate_in_batches_extends_split_pieces (tr : Str → Str) (subtitles : List Str)
    (limit : Nat) :
    (translate_in_batches tr subtitles limit).length =
      ((batch_subtitles (subtitles.map compress_line) limit ['\n']).map
        (fun b => ((tr (List.intercalate ['\n'] b)).splitOn '\n').length)).sum ∧
    (batch_warnings tr subtitles limit = 0 ↔
      ∀ b ∈ batch_subtitles (subtitles.map compress_line) limit ['\n'],
        ((tr (List.intercalate ['\n'] b)).splitOn '\n').length = b.length) ∧
    ((∀ b ∈ batch_subtitles (subtitles.map compress_line) limit ['\n'],
        ((tr (List.intercalate ['\n'] b)).splitOn '\n').length = b.length) →
      (translate_in_batches tr subtitles limit).length = subtitles.length) := by
  have hlen : (translate_in_batches tr subtitles limit).length =
      ((batch_subtitles (subtitles.map compress_line) limit ['\n']).map
        (fun b => ((tr (List.intercalate ['\n'] b)).splitOn '\n').length)).sum := by
    rw [translate_in_batches, List.length_flatMap]
    rfl
  refine ⟨hlen, ?_, ?_⟩
  · rw [batch_warnings, List.countP_eq_zero]
    constructor
    · intro hall b hb
      have := hall b hb
      simpa using this
    · intro hall b hb
      simp [hall b hb]
  · intro hall
    rw [hlen]
    rw [List.map_congr_left (fun b hb => hall b hb)]
    rw [← List.length_flatten]
    rw [show (batch_subtitles (subtitles.map compress_line) limit ['\n']).flatten
        = subtitles.map compress_line by
      simpa [batch_subtitles] using
        batch_go_flatten (['\n'] : Str).length limit (subtitles.map compress_line) [] 0]
    rw [List.length_map]

/-- Witness for C2 (amended) with an echo provider on two one-character
subtitles: the single batch's reply splits back into 2 lines, and the result
has one entry per subtitle. -/
theorem translate_in_batches_extends_split_pieces_witness :
    (∀ b ∈ batch_subtitles ([['a'], ['b']].map compress_line) 6000 ['\n'],
      (((fun s => s) (List.intercalate ['\n'] b)).splitOn '\n').length = b.length) ∧
    (translate_in_batches (fun s => s) [['a'], ['b']] 6000).length = 2 :=
  ⟨by simp [batch_subtitles, batch_go, compress_line, wsSplit, compressWords,
      List.intercalate, List.splitOn, List.splitOnP, List.splitOnP.go],
    (translate_in_batches_extends_split_pieces (fun s => s) [['a'], ['b']] 6000).2.2
      (by simp [batch_subtitles, batch_go, compress_line, wsSplit, compressWords,
        List.intercalate, List.splitOn, List.splitOnP, List.splitOnP.go])⟩

/-! ## Per-unit concurrency: results are placed by index, not completion order -/

theorem applyCompletions_foldl_getElem (worker : Str → Str) (texts : List Str) :
    ∀ (completions : List Nat) (init : List (Option Str)) (j : Nat),
      (completions.foldl (fun results i => results.set i (some (worker (texts.getD i []))))
        init)[j]? =
      if j ∈ completions ∧ j < init.length then some (some (worker (texts.getD j [])))
      else init[j]? := by
  intro completions
  induction completions with
  | nil =>
    intro init j
    simp
  | cons i rest ih =>
    intro init j
    rw [List.foldl_cons, ih, List.length_set]
    by_cases h1 : j ∈ rest ∧ j < init.length
    · have : j ∈ i :: rest ∧ j < init.length := ⟨List.mem_cons_of_mem _ h1.1, h1.2⟩
      simp [h1, this]
    · rw [if_neg h1, List.getElem?_set]
      by_cases h2 : i = j
      · subst h2
        by_cases h3 : i < init.length
        · rw [if_pos rfl, if_pos h3, if_pos ⟨by simp, h3⟩]
        · rw [if_pos rfl, if_neg h3, if_neg (fun hc => h3 hc.2)]
          exact (List.getElem?_eq_none (Nat.le_of_not_lt h3)).symm
      · rw [if_neg h2]
        rw [if_neg ?_]
        intro hc
        rcases List.mem_cons.mp hc.1 with rfl | hm
        · exact h2 rfl
        · exact h1 ⟨hm, hc.2⟩

theorem applyCompletions_eq_map (worker : Str → Str) (texts : List Str)
    (completions : List Nat) (hperm : completions.Perm (List.range texts.length)) :
    applyCompletions worker texts completions = texts.map (fun t => some (worker t)) := by
  apply List.ext_getElem?
  intro j
  rw [applyCompletions, applyCompletions_foldl_getElem, List.length_replicate]
  have hmem : j ∈ completions ↔ j < texts.length := by
    rw [hperm.mem_iff, List.mem_range]
  rw [List.getElem?_map]
  by_cases hj : j < texts.length
  · rw [if_pos ⟨hmem.mpr hj, hj⟩, List.getElem?_eq_getElem hj]
    simp [List.getD, List.getElem?_eq_getElem hj]
  · rw [if_neg (fun hc => hj hc.2), List.getElem?_replicate, if_neg hj]
    rw [List.getElem?_eq_none (Nat.le_of_not_lt hj)]
    rfl

/-- C8: when each submitted index completes exactly once, in an arbitrary
order (`completions` is any permutation of the indices), both concurrent
drivers place each worker's result at its originating index: position `i` of
the output holds the translation of input `i` (for `translate_line_by_line`,
of its compressed form), independent of the completion order, and the output
has one entry per input. -/
theorem concurrent_results_placed_by_index (translateOne : Str → Str) (texts : List Str)
    (completions : List Nat) (hperm : completions.Perm (List.range texts.length)) :
    parallel_translate translateOne texts completions =
      texts.map (fun t => some (translateOne t)) ∧
    translate_line_by_line translateOne texts completions =
      texts.map (fun t => some (translateOne (compress_line t))) ∧
    (parallel_translate translateOne texts completions).length = texts.length := by
  refine ⟨applyCompletions_eq_map _ _ _ hperm, applyCompletions_eq_map _ _ _ hperm, ?_⟩
  rw [parallel_translate, applyCompletions_eq_map _ _ _ hperm, List.length_map]

/-- Witness for C8: two texts completing out of order (`[1, 0]`) still land at
their originating indices. -/
theorem concurrent_results_placed_by_index_witness :
    parallel_translate (fun s => s) [['a'], ['b']] [1, 0] = [some ['a'], some ['b']] ∧
    ([1, 0] : List Nat).Perm (List.range 2) :=
  ⟨(concurrent_results_placed_by_index (fun s => s) [['a'], ['b']] [1, 0] (by decide)).1,
    by decide⟩

/-! ## Retry loops: the unbounded client and the bounded client -/

/-- C4 (code bug in translate_srt.py): the `while True:` retry loop of
`baidu_translate` has no attempt cap.  With every attempt failing it returns
no result for any number of attempts (conjuncts 1 and 2: the fuel-indexed
loop yields `none` for every fuel, so no terminal error is ever surfaced),
while its backoff delay before the (n+1)-th retry is
`min((n+1)*0.1s, 1.0s)` — additive steps of 0.1s up to the 1.0s ceiling
(conjunct 3).  The other client, in translate_srt_baidu.py, does cap its
attempts at `max_retries` but then returns the empty string, a sentinel
rather than a terminal error (conjunct 4). -/
theorem baidu_retry_unbounded :
    (∀ fuel attempt delay,
      baiduRetryLoop (fun _ => AttemptOutcome.requestError) fuel attempt delay = none) ∧
    (∀ fuel, baiduRetryRun (fun _ => AttemptOutcome.requestError) fuel = none) ∧
    (∀ n, nextDelay^[n] 1 = min (n + 1) 10) ∧
    (∀ maxRetries start, baiduRetryBounded (fun _ => none) start maxRetries = []) := by
  have h1 : ∀ fuel attempt delay,
      baiduRetryLoop (fun _ => AttemptOutcome.requestError) fuel attempt delay = none := by
    intro fuel
    induction fuel with
    | zero => intro a d; rfl
    | succ n ih =>
      intro a d
      rw [baiduRetryLoop]
      exact ih (a + 1) (nextDelay d)
  refine ⟨h1, fun fuel => h1 fuel 0 1, ?_, ?_⟩
  · intro n
    induction n with
    | zero => simp
    | succ k ih =>
      rw [Function.iterate_succ_apply', ih, nextDelay]
      omega
  · intro m
    induction m with
    | zero => intro s; rfl
    | succ k ih =>
      intro s
      rw [baiduRetryBounded]
      exact ih (s + 1)

/-! ## Rate limiter: tokens accumulate without cap -/

theorem burstTrace_feasible : FeasibleTrace burstTrace := by
  intro t
  rw [burstTrace, List.countP_replicate]
  simp only [tokensIssued, decide_eq_true_eq]
  split
  · omega
  · omega

/-- C7 counterexample: the semaphore has no capacity cap, so unconsumed
tokens accumulate.  The feasible trace with no acquires for 100 seconds and
then 1010 acquires at t = 100.5s packs 1010 successful acquires into the
one-second window (100s, 101s], far above the claimed bound
`capacity * ceil(T / interval) = 10 * 1 = 10`. -/
theorem rate_window_bound_counterexample :
    FeasibleTrace burstTrace ∧
    windowCount burstTrace 1000 10 = 1010 ∧
    10 * ((10 + 10 - 1) / 10) < windowCount burstTrace 1000 10 := by
  have hw : windowCount burstTrace 1000 10 = 1010 := by
    rw [windowCount, burstTrace, List.countP_replicate]
    norm_num
  exact ⟨burstTrace_feasible, hw, by rw [hw]; norm_num⟩

/-- C7 amended: the bound that does hold is global, not per-window — the
completions inside any window `(lo, lo + T]` are at most the total number of
permits issued from process start through the end of the window,
`capacity * (1 + floor((lo+T) / interval))`; the claimed window-local bound
`capacity * ceil(T / interval)` fails because unconsumed tokens accumulate. -/
theorem rate_window_bounded_by_issued (acquireTimes : List Nat)
    (h : FeasibleTrace acquireTimes) (lo T : Nat) :
    windowCount acquireTimes lo T ≤ tokensIssued (lo + T) := by
  have hmono : windowCount acquireTimes lo T ≤
      acquireTimes.countP (fun a => decide (a ≤ lo + T)) := by
    apply List.countP_mono_left
    intro a _ ha
    simp only [decide_eq_true_eq] at ha ⊢
    omega
  exact le_trans hmono (h (lo + T))

/-- Witness for C7 (amended) on the one-acquire trace `[5]`. -/
theorem rate_window_bounded_by_issued_witness :
    windowCount [5] 0 7 ≤ tokensIssued 7 := by
  apply rate_window_bounded_by_issued
  intro t
  have h1 : ([5] : List Nat).countP (fun a => decide (a ≤ t)) ≤ 1 := by
    simpa using List.countP_le_length (fun a => decide (a ≤ t)) (l := [5])
  have h2 : 1 ≤ tokensIssued t := by
    rw [tokensIssued]; omega
  omega

/-! ## Line classifier (modelled from the spec) -/

/-- C9: the classifier (modelled from the spec, the source has no
`is_translatable` of its own) is a total pure function returning true exactly
when the whitespace-trimmed line is nonempty, is not composed solely of
decimal digits, and does not match the `HH:MM:SS,mmm --> HH:MM:SS,mmm`
pattern; in particular it is false on `"42"`, on
`"00:01:20,720 --> 00:01:22,740"`, on `""` and on whitespace, and true on
`"Hello, world!"`. -/
theorem is_translatable_contract :
    (∀ line : Str, is_translatable line = true ↔
      (pyStrip line ≠ [] ∧ ¬(∀ c ∈ pyStrip line, c.isDigit = true) ∧
        isTimeRange (pyStrip line) = false)) ∧
    is_translatable ['4', '2'] = false ∧
    is_translatable ("00:01:20,720 --> 00:01:22,740".data) = false ∧
    is_translatable [] = false ∧
    is_translatable [' ', ' ', ' '] = false ∧
    is_translatable ("Hello, world!".data) = true := by
  refine ⟨?_, by decide, by decide, by decide, by decide, by decide⟩
  intro line
  rw [show (¬∀ c ∈ pyStrip line, c.isDigit = true) ↔
      ¬((pyStrip line).all Char.isDigit = true) from by rw [List.all_eq_true]]
  unfold is_translatable
  by_cases h1 : pyStrip line = []
  · rw [if_pos h1]
    simp [h1]
  · rw [if_neg h1]
    by_cases h2 : (pyStrip line).all Char.isDigit = true
    · rw [if_pos h2]
      simp [h1, h2]
    · rw [if_neg h2]
      by_cases h3 : isTimeRange (pyStrip line) = true
      · rw [if_pos h3]
        simp [h1, h2, h3]
      · rw [if_neg h3]
        simp only [Bool.not_eq_true] at h3
        simp [h1, h2, h3]

/-! ## Blank-content substitution before translation -/

/-- C10 counterexample: in translate_srt_baidu.py a subtitle with non-blank
content `" hi "` is NOT passed through unchanged — the trimmed content
`"hi"` is submitted instead. -/
theorem blank_substitution_counterexample :
    pyStrip [' ', 'h', 'i', ' '] ≠ [] ∧
    baidu_original_text [' ', 'h', 'i', ' '] ≠ [' ', 'h', 'i', ' '] := by decide

/-- C10 amended: in both orchestrators the string submitted per subtitle is
never empty, and blank or whitespace-only content is replaced by a single
space `" "`; non-blank content is passed through unchanged by
translate_srt.py, while translate_srt_baidu.py passes its whitespace-trimmed
form. -/
theorem submitted_text_never_empty (content : Str) :
    deepl_original_text content ≠ [] ∧
    baidu_original_text content ≠ [] ∧
    (pyStrip content = [] →
      deepl_original_text content = [' '] ∧ baidu_original_text content = [' ']) ∧
    (pyStrip content ≠ [] →
      deepl_original_text content = content ∧
        baidu_original_text content = pyStrip content) := by
  by_cases h : pyStrip content = []
  · rw [deepl_original_text, baidu_original_text, if_pos h, if_pos h]
    exact ⟨by simp, by simp, fun _ => ⟨rfl, rfl⟩, fun hc => absurd h hc⟩
  · rw [deepl_original_text, baidu_original_text, if_neg h, if_neg h]
    have hcne : content ≠ [] := by
      intro hc
      exact h (by rw [hc, pyStrip]; rfl)
    exact ⟨hcne, h, fun hc => absurd hc h, fun _ => ⟨rfl, rfl⟩⟩

/-- Witness for C10 (amended) at non-blank `" hi "` and blank `"  "`. -/
theorem submitted_text_never_empty_witness :
    baidu_original_text [' ', 'h', 'i', ' '] = pyStrip [' ', 'h', 'i', ' '] ∧
    deepl_original_text [' ', ' '] = [' '] :=
  ⟨((submitted_text_never_empty [' ', 'h', 'i', ' ']).2.2.2 (by decide)).2,
    ((submitted_text_never_empty [' ', ' ']).2.2.1 (by decide)).1⟩

end SrtTransfer
